import Mathlib

/-!
Verification of the passwdm CLI password manager (src/cli.js).

The crypto engine (encryptText / decryptText, lines 100-116) calls Node's
aes-256-gcm.  The cipher itself is external library code, so it is modelled
abstractly but faithfully to GCM's shape: a keystream determined by key and IV
(CTR mode, applied by cipher.update via XOR) and an authentication tag that is
a function of key, IV and ciphertext (cipher.getAuthTag / decipher.setAuthTag
followed by the verifying decipher.final).  Everything around the cipher —
hex encoding, the colon-joined payload format, the store operations, the
password generator and the interactive flows — is translated directly from
the source.
-/

namespace PasswdM

/-- Policy constants from src/cli.js lines 28-31. -/
def LOWER : List Char := "abcdefghijklmnopqrstuvwxyz".toList

/-- Uppercase class (src/cli.js line 29). -/
def UPPER : List Char := "ABCDEFGHIJKLMNOPQRSTUVWXYZ".toList

/-- Digit class (src/cli.js line 30). -/
def DIGITS : List Char := "0123456789".toList

/-- Special-character class (src/cli.js line 31). -/
def SPECIAL : List Char := "!@#$^&*~".toList

/-- The union string `all = LOWER + UPPER + DIGITS + SPECIAL` (line 139). -/
def ALL : List Char := LOWER ++ UPPER ++ DIGITS ++ SPECIAL

/-- Hex alphabet used by Buffer.toString with the hex encoding. -/
def hexChars : List Char := "0123456789abcdef".toList

/-- Two-character hex rendering of one byte. -/
def byteToHex (b : Nat) : List Char :=
  [hexChars.getD (b / 16) '0', hexChars.getD (b % 16) '0']

/-- Buffer.toString hex of a byte sequence (b.toString in line 105). -/
def bytesToHex (bs : List Nat) : List Char := bs.flatMap byteToHex

/-- Numeric value of one hex digit; Buffer.from with hex accepts both cases. -/
def hexVal (c : Char) : Option Nat :=
  if '0' ≤ c ∧ c ≤ '9' then some (c.toNat - Char.toNat '0')
  else if 'a' ≤ c ∧ c ≤ 'f' then some (c.toNat - Char.toNat 'a' + 10)
  else if 'A' ≤ c ∧ c ≤ 'F' then some (c.toNat - Char.toNat 'A' + 10)
  else none

/-- Buffer.from(str, hex) (lines 110-112): decodes pairs of hex digits and
    stops at the first invalid pair, Node's permissive behaviour. -/
def hexToBytes : List Char → List Nat
  | c1 :: c2 :: rest =>
    match hexVal c1, hexVal c2 with
    | some h, some l => (16 * h + l) :: hexToBytes rest
    | _, _ => []
  | _ => []

/-- JS String.prototype.split on the colon delimiter (line 109). -/
def splitColon : List Char → List (List Char)
  | [] => [[]]
  | c :: rest =>
    if c = ':' then [] :: splitColon rest
    else
      match splitColon rest with
      | p :: ps => (c :: p) :: ps
      | [] => [[c]]

/-- Abstract model of Node crypto aes-256-gcm: `ks key iv i` is the i-th
    keystream byte and `tagOf key iv ct` the authentication tag. -/
structure GCM where
  ks : List Nat → List Nat → Nat → Nat
  tagOf : List Nat → List Nat → List Nat → List Nat

/-- CTR keystream application: cipher.update / decipher.update XOR the data
    with the keystream position by position. -/
def ctrXor (g : GCM) (key iv data : List Nat) : List Nat :=
  List.zipWith (fun b k => b ^^^ k) data ((List.range data.length).map (g.ks key iv))

/-- Embedding of encryptText (src/cli.js lines 100-106).  The fresh random
    IV produced by crypto.randomBytes(IV_LEN) is a parameter; the payload is
    `[iv, ct, tag].map(hex).join(colon)`. -/
def encryptText (g : GCM) (key iv plain : List Nat) : List Char :=
  bytesToHex iv ++ ':' :: (bytesToHex (ctrXor g key iv plain) ++ ':' ::
    bytesToHex (g.tagOf key iv (ctrXor g key iv plain)))

/-- The two decryption failure kinds of the spec: a payload that does not
    split into three components throws a TypeError from Buffer.from
    (formatError), and a failed tag verification throws from decipher.final
    (integrityError). -/
inductive DecErr where
  | formatError
  | integrityError
deriving DecidableEq

/-- Embedding of decryptText (src/cli.js lines 108-116): split the payload on
    colons (destructuring keeps the first three components and ignores any
    extras; fewer than three throws before any cipher work), hex-decode the
    components, then verify the tag and return the CTR decryption.  The
    exception from decipher.final on a tag mismatch aborts the call before the
    concatenated plaintext is returned. -/
def decryptText (g : GCM) (key : List Nat) (payload : List Char) :
    Except DecErr (List Nat) :=
  match splitColon payload with
  | ivh :: cth :: tgh :: _ =>
    if g.tagOf key (hexToBytes ivh) (hexToBytes cth) = hexToBytes tgh then
      .ok (ctrXor g key (hexToBytes ivh) (hexToBytes cth))
    else
      .error .integrityError
  | _ => .error .formatError

/-- Concrete cipher instance used by the witnesses: zero keystream and the
    identity tag function (injective in the ciphertext). -/
def gW : GCM := { ks := fun _ _ _ => 0, tagOf := fun _ _ ct => ct }

/-- A concrete 32-byte master key. -/
def keyW : List Nat := List.replicate 32 0

/-- A concrete 12-byte IV. -/
def ivW : List Nat := List.replicate 12 0

/-- A concrete plaintext. -/
def ptW : List Nat := [104, 105]

/-- One random pick s[Math.floor(Math.random() * s.length)] (src/cli.js line
    140): the stream value k is reduced into the index range 0..s.length-1,
    exactly the image of Math.floor(Math.random() * s.length) for a float in
    [0, 1). -/
def pick (s : List Char) (k : Nat) : Char := s.getD (k % s.length) 'a'

/-- The while-loop of line 142: n further picks from the union alphabet,
    consuming stream positions k, k+1, .... -/
def fillPicks (r : Nat → Nat) (k : Nat) : Nat → List Char
  | 0 => []
  | n + 1 => pick ALL (r k) :: fillPicks r (k + 1) n

/-- One JS destructuring swap of positions i and j (line 145). -/
def swapL (l : List Char) (i j : Nat) : List Char :=
  (l.set i (l.getD j 'a')).set j (l.getD i 'a')

/-- The Fisher-Yates loop of lines 143-146 with i descending to 1; the draw
    at stream position k realizes Math.floor(Math.random() * (i + 1)). -/
def fyLoop (r : Nat → Nat) (k : Nat) : Nat → List Char → List Char
  | 0, l => l
  | i + 1, l => fyLoop r (k + 1) i (swapL l (i + 1) (r k % (i + 2)))

/-- Embedding of generatePassword (src/cli.js lines 137-148).  The parameter
    r is the stream of values drawn from Math.random() — the general-purpose
    PRNG — which the source uses for the four class representatives, the fill
    of the remaining positions, and the shuffle. -/
def generatePassword (len : Nat) (r : Nat → Nat) : List Char :=
  let length := if len < 8 then 8 else len
  let pw := [pick LOWER (r 0), pick UPPER (r 1), pick DIGITS (r 2),
    pick SPECIAL (r 3)] ++ fillPicks r 4 (length - 4)
  fyLoop r length (pw.length - 1) pw

/-- One stored credential record (store.json entries, src/cli.js lines
    167-173).  An entry created by the generate paths has no deprecatedAt
    field, modelled as none. -/
structure Entry where
  id : String
  name : String
  secret : List Char
  createdAt : String
  deprecated : Bool
  deprecatedAt : Option String
deriving DecidableEq

/-- The fresh entry object pushed by generateFlow and the two regen paths
    (lines 167-173, 209-215, 238-244): active, no deprecatedAt field. -/
def mkEntry (id name : String) (secret : List Char) (createdAt : String) :
    Entry :=
  { id := id, name := name, secret := secret, createdAt := createdAt,
    deprecated := false, deprecatedAt := none }

/-- Embedding of deprecateEntry (src/cli.js lines 150-153). -/
def deprecateEntry (e : Entry) (now : String) : Entry :=
  { e with deprecated := true, deprecatedAt := some now }

/-- getFlow mutates in place the entry returned by entries.find (line 190),
    the first entry whose id matches. -/
def deprecateFirst (rid now : String) : List Entry → List Entry
  | [] => []
  | e :: es =>
    if e.id == rid then deprecateEntry e now :: es
    else e :: deprecateFirst rid now es

/-- generateFlow's store mutation (lines 159-174): append a fresh active
    entry. -/
def genOp (s : List Entry) (id name : String) (secret : List Char)
    (createdAt : String) : List Entry :=
  s ++ [mkEntry id name secret createdAt]

/-- getFlow's Deprecate+new branch (lines 234-245): mark the selected entry
    deprecated in place and push a new active entry under the same name. -/
def rotateOp (s : List Entry) (e : Entry) (newId depAt : String)
    (newSecret : List Char) (createdAt : String) : List Entry :=
  deprecateFirst e.id depAt s ++ [mkEntry newId e.name newSecret createdAt]

/-- getFlow's Delete-and-new corruption branch (lines 204-216): drop the
    corrupted entry by id and push a replacement under the same name. -/
def replaceOp (s : List Entry) (e : Entry) (newId : String)
    (newSecret : List Char) (createdAt : String) : List Entry :=
  s.filter (fun x => x.id != e.id) ++ [mkEntry newId e.name newSecret createdAt]

/-- deleteFlow's store mutation (line 284): remove every entry sharing the
    name, active and deprecated alike. -/
def removeAllByName (s : List Entry) (nm : String) : List Entry :=
  s.filter (fun e => e.name != nm)

/-- Embedding of deleteFlow (src/cli.js lines 272-288): the result is the
    written store together with the reported count when saveStore runs, and
    none when the flow returns without writing — no entries to choose from,
    or the user declines the confirmation. -/
def deleteFlow (s : List Entry) (nm : String) (confirm : Bool) :
    Option (List Entry × Nat) :=
  if s.isEmpty then none
  else if confirm then
    some (removeAllByName s nm, s.length - (removeAllByName s nm).length)
  else none

/-- The persisted store after deleteFlow: the written store when a write
    happened, otherwise the store as loaded. -/
def persistedAfterDelete (s : List Entry) (nm : String) (confirm : Bool) :
    List Entry :=
  match deleteFlow s nm confirm with
  | some (s', _) => s'
  | none => s

/-- The interactive choice offered on a failed decrypt (lines 197-203). -/
inductive OnErr where
  | back
  | regen
deriving DecidableEq

/-- The menu shown after a successful decrypt (lines 224-232). -/
inductive NextChoice where
  | regen
  | showOld
  | back
  | quit
deriving DecidableEq

/-- Outcome of one flow invocation: the session goes back to the main menu
    with this store persisted, the process exits normally, or an uncaught
    exception terminates the session. -/
inductive FlowResult where
  | ok (s : List Entry)
  | exited
  | crashed
deriving DecidableEq

/-- Embedding of showDeprecated (src/cli.js lines 255-270).  The decryptText
    call on line 267 is not wrapped in try/catch, so a decrypt failure
    propagates out of every enclosing call and terminates the session. -/
def showDeprecated (dec : List Char → Except DecErr (List Nat))
    (s : List Entry) (selId : String) : FlowResult :=
  if (s.filter (fun e => e.deprecated)).isEmpty then .ok s
  else
    match s.find? (fun e => e.id == selId) with
    | none => .crashed
    | some entry =>
      match dec entry.secret with
      | .error _ => .crashed
      | .ok _ => .ok s

/-- Embedding of getFlow (src/cli.js lines 179-253).  dec is decryptText
    under the session master key; selId is the entry chosen from the active
    list; onErr answers the corruption prompt; next answers the post-display
    menu; selDep is the selection inside showDeprecated; the remaining
    parameters are the fresh id, timestamps and encrypted secret consumed by
    the mutating branches. -/
def getFlow (dec : List Char → Except DecErr (List Nat)) (s : List Entry)
    (selId : String) (onErr : OnErr) (next : NextChoice) (selDep : String)
    (newId depAt : String) (newSecret : List Char) (createdAt : String) :
    FlowResult :=
  if (s.filter (fun e => !e.deprecated)).isEmpty then .ok s
  else
    match s.find? (fun e => e.id == selId) with
    | none => .crashed
    | some entry =>
      match dec entry.secret with
      | .error _ =>
        match onErr with
        | .back => .ok s
        | .regen => .ok (replaceOp s entry newId newSecret createdAt)
      | .ok _ =>
        match next with
        | .regen => .ok (rotateOp s entry newId depAt newSecret createdAt)
        | .showOld => showDeprecated dec s selDep
        | .back => .ok s
        | .quit => .exited

/-- Default entry used with List.getD. -/
def dEntry : Entry := mkEntry "" "" [] ""

/-- The stores reachable from the empty store by sequences of the lifecycle
    operations: generate, retrieve (which does not change the store),
    replace-on-corruption, rotate and delete. -/
inductive Reachable : List Entry → Prop where
  | empty : Reachable []
  | gen : ∀ s id nm sec cAt, Reachable s → Reachable (genOp s id nm sec cAt)
  | rotate : ∀ s e nid depAt sec cAt, Reachable s → e ∈ s →
      e.deprecated = false → Reachable (rotateOp s e nid depAt sec cAt)
  | replace : ∀ s e nid sec cAt, Reachable s → e ∈ s →
      Reachable (replaceOp s e nid sec cAt)
  | delete : ∀ s nm, Reachable s → Reachable (removeAllByName s nm)

/-- The spec invariant: deprecatedAt is present iff deprecated is true. -/
def DeprecatedAtInv (s : List Entry) : Prop :=
  ∀ e ∈ s, e.deprecated = true ↔ e.deprecatedAt ≠ none

/-- Concrete active entry used by the witnesses. -/
def eAct : Entry :=
  { id := "id-1", name := "example.com", secret := ['p'], createdAt := "t0",
    deprecated := false, deprecatedAt := none }

/-- Concrete deprecated entry whose secret is not a parsable payload. -/
def eDep : Entry :=
  { id := "id-2", name := "example.com", secret := ['x'], createdAt := "t0",
    deprecated := true, deprecatedAt := some "t1" }

/-- Second concrete deprecated entry sharing the name. -/
def eDep3 : Entry :=
  { id := "id-3", name := "example.com", secret := ['x'], createdAt := "t0",
    deprecated := true, deprecatedAt := some "t1" }

/-- Concrete entry under an unrelated name. -/
def eOther : Entry :=
  { id := "id-4", name := "other.com", secret := ['p'], createdAt := "t0",
    deprecated := false, deprecatedAt := none }

/-- Concrete active entry whose secret is not a parsable payload. -/
def eBad : Entry :=
  { id := "id-5", name := "example.com", secret := ['x'], createdAt := "t0",
    deprecated := false, deprecatedAt := none }

/-- Concrete store for the delete witnesses: one active and two deprecated
    entries named example.com plus one unrelated entry. -/
def sDel : List Entry := [eAct, eDep, eDep3, eOther]

/-! Supporting lemmas about hex encoding and payload splitting. -/

theorem hexVal_hexChars_getD : ∀ d : Nat, d < 16 →
    hexVal (hexChars.getD d '0') = some d := by decide

theorem getD_hexChars_mem (i : Nat) : hexChars.getD i '0' ∈ hexChars := by
  by_cases h : i < hexChars.length
  · rw [List.getD_eq_getElem _ _ h]
    exact List.getElem_mem h
  · rw [List.getD_eq_default _ _ (Nat.le_of_not_lt h)]
    decide

theorem mem_byteToHex_mem_hexChars {b : Nat} {c : Char} (h : c ∈ byteToHex b) :
    c ∈ hexChars := by
  simp only [byteToHex, List.mem_cons, List.not_mem_nil, or_false] at h
  rcases h with h | h
  · exact h ▸ getD_hexChars_mem _
  · exact h ▸ getD_hexChars_mem _

theorem colon_not_mem_bytesToHex (bs : List Nat) : ':' ∉ bytesToHex bs := by
  intro h
  simp only [bytesToHex, List.mem_flatMap] at h
  rcases h with ⟨b, _, hc⟩
  have := mem_byteToHex_mem_hexChars hc
  simp [hexChars] at this

theorem splitColon_of_no_colon (s : List Char) (h : ∀ c ∈ s, c ≠ ':') :
    splitColon s = [s] := by
  induction s with
  | nil => rfl
  | cons c t ih =>
    have hc : c ≠ ':' := h c (by simp)
    have ht : splitColon t = [t] := ih (fun x hx => h x (by simp [hx]))
    simp [splitColon, hc, ht]

theorem splitColon_append (s t : List Char) (h : ∀ c ∈ s, c ≠ ':') :
    splitColon (s ++ ':' :: t) = s :: splitColon t := by
  induction s with
  | nil => simp [splitColon]
  | cons c s ih =>
    have hc : c ≠ ':' := h c (by simp)
    have hs : splitColon (s ++ ':' :: t) = s :: splitColon t :=
      ih (fun x hx => h x (by simp [hx]))
    simp [splitColon, hc, hs]

theorem hexToBytes_bytesToHex (bs : List Nat) (h : ∀ b ∈ bs, b < 256) :
    hexToBytes (bytesToHex bs) = bs := by
  induction bs with
  | nil => rfl
  | cons b t ih =>
    have hb : b < 256 := h b (by simp)
    have hdiv : b / 16 < 16 := by omega
    have hmod : b % 16 < 16 := Nat.mod_lt _ (by norm_num)
    have ht : hexToBytes (bytesToHex t) = t := ih (fun x hx => h x (by simp [hx]))
    show hexToBytes (byteToHex b ++ bytesToHex t) = b :: t
    simp only [byteToHex, List.cons_append, List.nil_append, hexToBytes,
      hexVal_hexChars_getD _ hdiv, hexVal_hexChars_getD _ hmod, ht]
    congr 1
    omega

theorem zipWith_xor_cancel : ∀ (xs ks : List Nat), ks.length = xs.length →
    List.zipWith (fun b k => b ^^^ k)
      (List.zipWith (fun b k => b ^^^ k) xs ks) ks = xs := by
  intro xs
  induction xs with
  | nil => intro ks _; simp
  | cons x xs ih =>
    intro ks hk
    cases ks with
    | nil => simp at hk
    | cons k ks =>
      simp only [List.zipWith_cons_cons, List.cons.injEq]
      exact ⟨Nat.xor_cancel_right _ _, ih ks (by simpa using hk)⟩

theorem zipWith_xor_lt : ∀ (xs ks : List Nat), (∀ b ∈ xs, b < 256) →
    (∀ k ∈ ks, k < 256) →
    ∀ y ∈ List.zipWith (fun b k => b ^^^ k) xs ks, y < 256 := by
  intro xs
  induction xs with
  | nil => intro ks _ _ y hy; simp at hy
  | cons x xs ih =>
    intro ks hx hk y hy
    cases ks with
    | nil => simp at hy
    | cons k ks =>
      simp only [List.zipWith_cons_cons, List.mem_cons] at hy
      rcases hy with hy | hy
      · subst hy
        have h256 : (256 : Nat) = 2 ^ 8 := by norm_num
        rw [h256]
        exact Nat.xor_lt_two_pow (h256 ▸ hx x (by simp)) (h256 ▸ hk k (by simp))
      · exact ih ks (fun b hb => hx b (by simp [hb]))
          (fun b hb => hk b (by simp [hb])) y hy

theorem length_ctrXor (g : GCM) (key iv data : List Nat) :
    (ctrXor g key iv data).length = data.length := by
  simp [ctrXor]

theorem ctrXor_ctrXor (g : GCM) (key iv pt : List Nat) :
    ctrXor g key iv (ctrXor g key iv pt) = pt := by
  have hlen : (ctrXor g key iv pt).length = pt.length := length_ctrXor ..
  show List.zipWith _ (ctrXor g key iv pt)
      ((List.range (ctrXor g key iv pt).length).map (g.ks key iv)) = pt
  rw [hlen]
  exact zipWith_xor_cancel pt _ (by simp)

theorem ctrXor_lt (g : GCM) (key iv data : List Nat)
    (h1 : ∀ b ∈ data, b < 256) (h2 : ∀ i, g.ks key iv i < 256) :
    ∀ b ∈ ctrXor g key iv data, b < 256 := by
  intro b hb
  refine zipWith_xor_lt data _ h1 ?_ b hb
  intro k hk
  simp only [List.mem_map] at hk
  rcases hk with ⟨i, _, rfl⟩
  exact h2 i

theorem splitColon_encryptText (g : GCM) (key iv pt : List Nat) :
    splitColon (encryptText g key iv pt) =
      [bytesToHex iv, bytesToHex (ctrXor g key iv pt),
       bytesToHex (g.tagOf key iv (ctrXor g key iv pt))] := by
  show splitColon (bytesToHex iv ++ ':' :: _) = _
  rw [splitColon_append _ _ (fun c hc h => colon_not_mem_bytesToHex iv (h ▸ hc))]
  rw [splitColon_append _ _
    (fun c hc h => colon_not_mem_bytesToHex (ctrXor g key iv pt) (h ▸ hc))]
  rw [splitColon_of_no_colon _
    (fun c hc h => colon_not_mem_bytesToHex (g.tagOf key iv (ctrXor g key iv pt)) (h ▸ hc))]

/-- C1: for every plaintext and every 32-byte master key, decrypting the
    payload produced by encryptText under the same key returns exactly the
    plaintext (round-trip law), for any cipher instance whose keystream and
    tag produce bytes. -/
theorem c1_encrypt_decrypt_roundtrip (g : GCM) (key iv pt : List Nat)
    (hkey : key.length = 32) (hiv : iv.length = 12)
    (hivb : ∀ b ∈ iv, b < 256)
    (hpt : ∀ b ∈ pt, b < 256)
    (hks : ∀ i, g.ks key iv i < 256)
    (htag : ∀ b ∈ g.tagOf key iv (ctrXor g key iv pt), b < 256) :
    decryptText g key (encryptText g key iv pt) = .ok pt := by
  have hct : ∀ b ∈ ctrXor g key iv pt, b < 256 := ctrXor_lt g key iv pt hpt hks
  simp only [decryptText, splitColon_encryptText,
    hexToBytes_bytesToHex iv hivb,
    hexToBytes_bytesToHex _ hct,
    hexToBytes_bytesToHex _ htag,
    if_pos rfl, ctrXor_ctrXor, if_true]

/-- Witness for C1 at a concrete cipher, key, IV and plaintext. -/
theorem c1_roundtrip_witness :
    decryptText gW keyW (encryptText gW keyW ivW ptW) = .ok ptW :=
  c1_encrypt_decrypt_roundtrip gW keyW ivW ptW (by decide) (by decide)
    (by decide) (by decide) (fun i => by simp [gW]) (by decide)

theorem splitColon_hexTriple (a b c : List Nat) :
    splitColon (bytesToHex a ++ ':' :: (bytesToHex b ++ ':' :: bytesToHex c)) =
      [bytesToHex a, bytesToHex b, bytesToHex c] := by
  rw [splitColon_append _ _ (fun x hx h => colon_not_mem_bytesToHex a (h ▸ hx))]
  rw [splitColon_append _ _ (fun x hx h => colon_not_mem_bytesToHex b (h ▸ hx))]
  rw [splitColon_of_no_colon _ (fun x hx h => colon_not_mem_bytesToHex c (h ▸ hx))]

theorem set_ne_of_getD_ne {l : List Nat} {i b' : Nat} (hi : i < l.length)
    (hb : b' ≠ l.getD i 0) : l.set i b' ≠ l := by
  intro h
  apply hb
  have h2 := congrArg (fun t : List Nat => t.getD i 0) h
  simp only at h2
  rw [List.getD_eq_getElem _ _ (by simpa using hi),
    List.getElem_set_self, List.getD_eq_getElem _ _ hi] at h2
  rw [h2, List.getD_eq_getElem _ _ hi]

/-- C2: decryptText either returns the plaintext, or fails with
    integrityError when tag verification fails — in particular on any
    byte-level tampering of a valid payload's ciphertext or tag component,
    assuming the abstract tag function is collision-free in the ciphertext for
    the fixed key and IV — or fails with formatError when the payload does not
    split into three colon-separated components; the classification is total
    (no partial plaintext escapes on tag failure) and the two failure kinds
    are distinct values. -/
theorem c2_decrypt_error_classification (g : GCM) (key iv pt : List Nat)
    (hivb : ∀ b ∈ iv, b < 256) (hpt : ∀ b ∈ pt, b < 256)
    (hks : ∀ i, g.ks key iv i < 256)
    (htag : ∀ b ∈ g.tagOf key iv (ctrXor g key iv pt), b < 256)
    (hinj : ∀ c1 c2 : List Nat, g.tagOf key iv c1 = g.tagOf key iv c2 → c1 = c2) :
    (∀ i b', i < (ctrXor g key iv pt).length → b' < 256 →
       b' ≠ (ctrXor g key iv pt).getD i 0 →
       decryptText g key (bytesToHex iv ++ ':' ::
         (bytesToHex ((ctrXor g key iv pt).set i b') ++ ':' ::
           bytesToHex (g.tagOf key iv (ctrXor g key iv pt)))) =
         .error .integrityError)
    ∧ (∀ tg', (∀ b ∈ tg', b < 256) →
       tg' ≠ g.tagOf key iv (ctrXor g key iv pt) →
       decryptText g key (bytesToHex iv ++ ':' ::
         (bytesToHex (ctrXor g key iv pt) ++ ':' :: bytesToHex tg')) =
         .error .integrityError)
    ∧ (∀ payload, (splitColon payload).length < 3 →
       decryptText g key payload = .error .formatError)
    ∧ (∀ payload, decryptText g key payload = .error .formatError
        ∨ decryptText g key payload = .error .integrityError
        ∨ ∃ pt', decryptText g key payload = .ok pt')
    ∧ DecErr.formatError ≠ DecErr.integrityError := by
  have hct : ∀ b ∈ ctrXor g key iv pt, b < 256 := ctrXor_lt g key iv pt hpt hks
  refine ⟨?_, ?_, ?_, ?_, by decide⟩
  · intro i b' hi hb' hne
    have hct' : ∀ b ∈ (ctrXor g key iv pt).set i b', b < 256 := by
      intro b hb
      rcases List.mem_or_eq_of_mem_set hb with h | h
      · exact hct b h
      · exact h ▸ hb'
    simp only [decryptText, splitColon_hexTriple,
      hexToBytes_bytesToHex iv hivb, hexToBytes_bytesToHex _ hct',
      hexToBytes_bytesToHex _ htag]
    rw [if_neg]
    intro heq
    exact set_ne_of_getD_ne hi hne (hinj _ _ heq)
  · intro tg' htg' hne
    simp only [decryptText, splitColon_hexTriple,
      hexToBytes_bytesToHex iv hivb, hexToBytes_bytesToHex _ hct,
      hexToBytes_bytesToHex _ htg']
    rw [if_neg]
    intro heq
    exact hne heq.symm
  · intro payload hlen
    rcases hsp : splitColon payload with _ | ⟨a, _ | ⟨b, _ | ⟨c, rest⟩⟩⟩
    · simp [decryptText, hsp]
    · simp [decryptText, hsp]
    · simp [decryptText, hsp]
    · exfalso
      rw [hsp] at hlen
      simp at hlen
      omega
  · intro payload
    rcases hsp : splitColon payload with _ | ⟨a, _ | ⟨b, _ | ⟨c, rest⟩⟩⟩
    · left; simp [decryptText, hsp]
    · left; simp [decryptText, hsp]
    · left; simp [decryptText, hsp]
    · by_cases hcond : g.tagOf key (hexToBytes a) (hexToBytes b) = hexToBytes c
      · right; right
        exact ⟨ctrXor g key (hexToBytes a) (hexToBytes b),
          by simp [decryptText, hsp, hcond]⟩
      · right; left
        simp [decryptText, hsp, hcond]

/-- Witness for C2: a one-byte ciphertext tamper of a concrete valid payload
    yields integrityError, and a colon-free payload yields formatError. -/
theorem c2_classification_witness :
    decryptText gW keyW (bytesToHex ivW ++ ':' ::
      (bytesToHex ((ctrXor gW keyW ivW ptW).set 0 0) ++ ':' ::
        bytesToHex (gW.tagOf keyW ivW (ctrXor gW keyW ivW ptW)))) =
      .error .integrityError
    ∧ decryptText gW keyW ['x'] = .error .formatError := by
  constructor
  · exact (c2_decrypt_error_classification gW keyW ivW ptW (by decide)
      (by decide) (fun i => by simp [gW]) (by decide)
      (fun c1 c2 h => h)).1 0 0 (by decide) (by decide) (by decide)
  · exact (c2_decrypt_error_classification gW keyW ivW ptW (by decide)
      (by decide) (fun i => by simp [gW]) (by decide)
      (fun c1 c2 h => h)).2.2.1 ['x'] (by decide)

/-! Password generator lemmas. -/

theorem pick_mem (s : List Char) (k : Nat) (h : s ≠ []) : pick s k ∈ s := by
  have hlen : k % s.length < s.length := Nat.mod_lt _ (List.length_pos.2 h)
  rw [pick, List.getD_eq_getElem _ _ hlen]
  exact List.getElem_mem hlen

theorem length_fillPicks (r : Nat → Nat) : ∀ (n k : Nat),
    (fillPicks r k n).length = n := by
  intro n
  induction n with
  | zero => intro k; rfl
  | succ n ih => intro k; simp [fillPicks, ih]

theorem mem_fillPicks (r : Nat → Nat) : ∀ (n k : Nat), ∀ c ∈ fillPicks r k n,
    c ∈ ALL := by
  intro n
  induction n with
  | zero => intro k c hc; simp [fillPicks] at hc
  | succ n ih =>
    intro k c hc
    simp only [fillPicks, List.mem_cons] at hc
    rcases hc with hc | hc
    · exact hc ▸ pick_mem ALL (r k) (by decide)
    · exact ih (k + 1) c hc

theorem swap_set_perm : ∀ (l : List Char) (kk : Nat) (a : Char),
    kk < l.length → List.Perm (l.getD kk 'a' :: l.set kk a) (a :: l) := by
  intro l
  induction l with
  | nil => intro kk a h; simp at h
  | cons x xs ih =>
    intro kk a h
    cases kk with
    | zero =>
      simp only [List.getD_cons_zero, List.set_cons_zero]
      exact List.Perm.swap a x xs
    | succ kk =>
      simp only [List.getD_cons_succ, List.set_cons_succ]
      have h' : kk < xs.length := by simpa using h
      have s1 : List.Perm (xs.getD kk 'a' :: x :: xs.set kk a)
          (x :: xs.getD kk 'a' :: xs.set kk a) := List.Perm.swap x _ _
      have s2 : List.Perm (x :: xs.getD kk 'a' :: xs.set kk a)
          (x :: a :: xs) := (ih kk a h').cons x
      have s3 : List.Perm (x :: a :: xs) (a :: x :: xs) := List.Perm.swap a x xs
      exact (s1.trans s2).trans s3

theorem set_getD_self : ∀ (l : List Char) (i : Nat), i < l.length →
    l.set i (l.getD i 'a') = l := by
  intro l
  induction l with
  | nil => intro i h; simp at h
  | cons x xs ih =>
    intro i h
    cases i with
    | zero => simp
    | succ i =>
      have h' : i < xs.length := by simpa using h
      simp only [List.getD_cons_succ, List.set_cons_succ]
      rw [ih i h']

theorem swapL_perm (l : List Char) (i j : Nat) (hi : i < l.length)
    (hj : j < l.length) : List.Perm (swapL l i j) l := by
  by_cases hij : i = j
  · subst hij
    rw [swapL, List.set_set, set_getD_self l i hi]
  · have hgd : (l.set i (l.getD j 'a')).getD j 'a' = l.getD j 'a' := by
      rw [List.getD_eq_getElem _ _ (by simpa using hj),
        List.getElem_set_ne hij, ← List.getD_eq_getElem _ _ hj]
    have key1 := swap_set_perm (l.set i (l.getD j 'a')) j (l.getD i 'a')
      (by simpa using hj)
    have key2 := swap_set_perm l i (l.getD j 'a') hi
    have chain : List.Perm (l.getD j 'a' :: swapL l i j) (l.getD j 'a' :: l) := by
      nth_rewrite 1 [← hgd]
      exact key1.trans key2
    exact chain.cons_inv

theorem fyLoop_perm (r : Nat → Nat) : ∀ (i : Nat) (l : List Char) (k : Nat),
    i < l.length → List.Perm (fyLoop r k i l) l := by
  intro i
  induction i with
  | zero => intro l k _; exact List.Perm.refl l
  | succ i ih =>
    intro l k h
    have hj : r k % (i + 2) < l.length := by
      have : r k % (i + 2) < i + 2 := Nat.mod_lt _ (by omega)
      omega
    have hswap := swapL_perm l (i + 1) (r k % (i + 2)) h hj
    have hlen : (swapL l (i + 1) (r k % (i + 2))).length = l.length := by
      simp [swapL]
    exact (ih _ (k + 1) (by rw [hlen]; omega)).trans hswap

theorem generatePassword_perm (len : Nat) (r : Nat → Nat) :
    List.Perm (generatePassword len r)
      ([pick LOWER (r 0), pick UPPER (r 1), pick DIGITS (r 2),
        pick SPECIAL (r 3)] ++ fillPicks r 4 ((if len < 8 then 8 else len) - 4)) := by
  apply fyLoop_perm
  simp only [List.length_append, List.length_cons, List.length_nil,
    length_fillPicks]
  omega

/-- C4: for every requested length and every draw stream, generatePassword
    returns a string of length max(L, 8) containing at least one character of
    each of the four classes, with every character drawn from their union. -/
theorem c4_generatePassword_policy (len : Nat) (r : Nat → Nat) :
    (generatePassword len r).length = max len 8
    ∧ (∃ c ∈ generatePassword len r, c ∈ LOWER)
    ∧ (∃ c ∈ generatePassword len r, c ∈ UPPER)
    ∧ (∃ c ∈ generatePassword len r, c ∈ DIGITS)
    ∧ (∃ c ∈ generatePassword len r, c ∈ SPECIAL)
    ∧ (∀ c ∈ generatePassword len r, c ∈ ALL) := by
  have hperm := generatePassword_perm len r
  refine ⟨?_, ?_, ?_, ?_, ?_, ?_⟩
  · rw [hperm.length_eq]
    simp only [List.length_append, List.length_cons, List.length_nil,
      length_fillPicks]
    rcases Nat.lt_or_ge len 8 with h | h
    · rw [if_pos h, max_eq_right (Nat.le_of_lt h)]
    · rw [if_neg (Nat.not_lt.2 h), max_eq_left h]
      omega
  · exact ⟨pick LOWER (r 0), hperm.mem_iff.2 (by simp),
      pick_mem _ _ (by decide)⟩
  · exact ⟨pick UPPER (r 1), hperm.mem_iff.2 (by simp),
      pick_mem _ _ (by decide)⟩
  · exact ⟨pick DIGITS (r 2), hperm.mem_iff.2 (by simp),
      pick_mem _ _ (by decide)⟩
  · exact ⟨pick SPECIAL (r 3), hperm.mem_iff.2 (by simp),
      pick_mem _ _ (by decide)⟩
  · intro c hc
    have hc' := hperm.mem_iff.1 hc
    simp only [List.cons_append, List.nil_append, List.mem_cons] at hc'
    have hsub : ∀ s : List Char, (∀ x ∈ s, x ∈ ALL) → ∀ x, x ∈ s → x ∈ ALL :=
      fun _ h x => h x
    rcases hc' with h | h | h | h | h
    · have : ∀ x ∈ LOWER, x ∈ ALL := by decide
      exact this _ (h ▸ pick_mem LOWER (r 0) (by decide))
    · have : ∀ x ∈ UPPER, x ∈ ALL := by decide
      exact this _ (h ▸ pick_mem UPPER (r 1) (by decide))
    · have : ∀ x ∈ DIGITS, x ∈ ALL := by decide
      exact this _ (h ▸ pick_mem DIGITS (r 2) (by decide))
    · have : ∀ x ∈ SPECIAL, x ∈ ALL := by decide
      exact this _ (h ▸ pick_mem SPECIAL (r 3) (by decide))
    · exact mem_fillPicks r _ 4 c h

/-- Witness for C4 at a concrete requested length below the floor. -/
theorem c4_policy_witness :
    (generatePassword 5 (fun _ => 0)).length = max 5 8 :=
  (c4_generatePassword_policy 5 (fun _ => 0)).1

/-- C3: the generator's output depends on the Math.random draw stream — all
    of its randomness (picks, fill and shuffle) is taken from the
    general-purpose PRNG, not from the cryptographically secure
    crypto.randomBytes source, which it does not consume at all. -/
theorem c3_generatePassword_uses_mathRandom :
    generatePassword 12 (fun _ => 0) ≠ generatePassword 12 (fun _ => 1) := by
  decide

/-! Store operation lemmas. -/

theorem deprecateFirst_of_decomp (l1 l2 : List Entry) (e : Entry)
    (now : String) (h : ∀ x ∈ l1, x.id ≠ e.id) :
    deprecateFirst e.id now (l1 ++ e :: l2) = l1 ++ deprecateEntry e now :: l2 := by
  induction l1 with
  | nil => simp [deprecateFirst]
  | cons x l1 ih =>
    have hx : (x.id == e.id) = false := beq_eq_false_iff_ne.2 (h x (by simp))
    simp only [List.cons_append, deprecateFirst, hx, Bool.false_eq_true,
      if_false, List.cons.injEq, true_and]
    exact ih (fun y hy => h y (by simp [hy]))

theorem mem_deprecateFirst (rid now : String) : ∀ (s : List Entry),
    ∀ x ∈ deprecateFirst rid now s,
      x ∈ s ∨ ∃ y ∈ s, x = deprecateEntry y now := by
  intro s
  induction s with
  | nil => intro x hx; simp [deprecateFirst] at hx
  | cons e t ih =>
    intro x hx
    by_cases he : (e.id == rid) = true
    · rw [deprecateFirst, if_pos he] at hx
      rcases List.mem_cons.1 hx with hx | hx
      · exact Or.inr ⟨e, by simp, hx⟩
      · exact Or.inl (List.mem_cons.2 (Or.inr hx))
    · rw [deprecateFirst, if_neg he] at hx
      rcases List.mem_cons.1 hx with hx | hx
      · exact Or.inl (List.mem_cons.2 (Or.inl hx))
      · rcases ih x hx with hx | ⟨y, hy, hxy⟩
        · exact Or.inl (List.mem_cons.2 (Or.inr hx))
        · exact Or.inr ⟨y, List.mem_cons.2 (Or.inr hy), hxy⟩

theorem length_deprecateFirst (rid now : String) : ∀ (s : List Entry),
    (deprecateFirst rid now s).length = s.length := by
  intro s
  induction s with
  | nil => rfl
  | cons e t ih =>
    by_cases he : (e.id == rid) = true
    · rw [deprecateFirst, if_pos he]; simp
    · rw [deprecateFirst, if_neg he]; simp [ih]

theorem deprecateFirst_fields (rid now : String) : ∀ (s : List Entry) (i : Nat),
    ((deprecateFirst rid now s).getD i dEntry).id = (s.getD i dEntry).id
    ∧ ((deprecateFirst rid now s).getD i dEntry).name = (s.getD i dEntry).name
    ∧ ((deprecateFirst rid now s).getD i dEntry).secret = (s.getD i dEntry).secret
    ∧ ((deprecateFirst rid now s).getD i dEntry).createdAt
        = (s.getD i dEntry).createdAt := by
  intro s
  induction s with
  | nil => intro i; exact ⟨rfl, rfl, rfl, rfl⟩
  | cons e t ih =>
    intro i
    by_cases he : (e.id == rid) = true
    · rw [deprecateFirst, if_pos he]
      cases i with
      | zero => exact ⟨rfl, rfl, rfl, rfl⟩
      | succ i => exact ⟨rfl, rfl, rfl, rfl⟩
    · rw [deprecateFirst, if_neg he]
      cases i with
      | zero => exact ⟨rfl, rfl, rfl, rfl⟩
      | succ i =>
        simp only [List.getD_cons_succ]
        exact ih i

theorem filter_name_partition (s : List Entry) (nm : String) :
    (s.filter (fun e => e.name == nm)).length
      + (s.filter (fun e => e.name != nm)).length = s.length := by
  induction s with
  | nil => rfl
  | cons e t ih =>
    by_cases he : e.name = nm
    · simp only [List.filter_cons, he, beq_self_eq_true, if_true, bne_self_eq_false,
        Bool.false_eq_true, if_false, List.length_cons]
      omega
    · simp only [List.filter_cons, beq_eq_false_iff_ne.2 he, Bool.false_eq_true,
        if_false, bne_iff_ne, ne_eq, he, not_false_eq_true, if_true,
        List.length_cons]
      omega

/-- C5: in a store whose only entry named nm is the active entry e (with
    unique ids), rotating e yields a store whose entries named nm are
    exactly the original entry — now deprecated with deprecatedAt set —
    followed by the appended fresh active entry, both named nm and with
    distinct ids; moreover none of the other store operations ever produces
    a deprecated entry that was not already in the store. -/
theorem c5_rotate_lifecycle (s : List Entry) (e : Entry)
    (nm newId depAt cAt : String) (sec : List Char)
    (hname : s.filter (fun x => x.name == nm) = [e])
    (hact : e.deprecated = false)
    (hnodup : (s.map Entry.id).Nodup)
    (hfresh : newId ∉ s.map Entry.id) :
    (rotateOp s e newId depAt sec cAt).filter (fun x => x.name == nm)
      = [deprecateEntry e depAt, mkEntry newId e.name sec cAt]
    ∧ (deprecateEntry e depAt).deprecated = true
    ∧ (deprecateEntry e depAt).deprecatedAt = some depAt
    ∧ (deprecateEntry e depAt).name = nm
    ∧ (deprecateEntry e depAt).id = e.id
    ∧ (mkEntry newId e.name sec cAt).deprecated = false
    ∧ (mkEntry newId e.name sec cAt).name = nm
    ∧ (mkEntry newId e.name sec cAt).secret = sec
    ∧ (mkEntry newId e.name sec cAt).id = newId
    ∧ e.id ≠ newId
    ∧ (∀ (t : List Entry) id2 nm2 sc c2, ∀ x ∈ genOp t id2 nm2 sc c2,
        x.deprecated = true → x ∈ t)
    ∧ (∀ (t : List Entry) e2 nid sc c2, ∀ x ∈ replaceOp t e2 nid sc c2,
        x.deprecated = true → x ∈ t)
    ∧ (∀ (t : List Entry) nm2, ∀ x ∈ removeAllByName t nm2,
        x.deprecated = true → x ∈ t) := by
  have hmeme : e ∈ s.filter (fun x => x.name == nm) := by rw [hname]; simp
  have he : e ∈ s := List.mem_of_mem_filter hmeme
  have hename : e.name = nm := by
    have := List.of_mem_filter hmeme
    simpa using this
  obtain ⟨l1, l2, rfl⟩ := List.append_of_mem he
  have hids : ∀ x ∈ l1, x.id ≠ e.id := by
    intro x hx hxe
    rw [List.map_append, List.map_cons] at hnodup
    have hnm := List.nodup_middle.1 hnodup
    have hnotmem := (List.nodup_cons.1 hnm).1
    exact hnotmem (by
      rw [← hxe]
      exact List.mem_append_left _ (List.mem_map_of_mem _ hx))
  have hdec := deprecateFirst_of_decomp l1 l2 e depAt hids
  have hfil : (l1 ++ e :: l2).filter (fun x => x.name == nm)
      = l1.filter (fun x => x.name == nm) ++ e :: l2.filter (fun x => x.name == nm) := by
    simp [List.filter_append, List.filter_cons, hename]
  have hnils : l1.filter (fun x : Entry => x.name == nm) = []
      ∧ l2.filter (fun x : Entry => x.name == nm) = [] := by
    rw [hfil] at hname
    have hlen : (l1.filter (fun x : Entry => x.name == nm)).length +
        (1 + (l2.filter (fun x : Entry => x.name == nm)).length) = 1 := by
      have hcl := congrArg List.length hname
      simp only [List.length_append, List.length_cons, List.length_nil,
        List.length_singleton] at hcl
      omega
    have hz1 : (l1.filter (fun x : Entry => x.name == nm)).length = 0 := by omega
    have hz2 : (l2.filter (fun x : Entry => x.name == nm)).length = 0 := by omega
    exact ⟨List.eq_nil_of_length_eq_zero hz1, List.eq_nil_of_length_eq_zero hz2⟩
  refine ⟨?_, rfl, rfl, hename, rfl, rfl, hename, rfl, rfl, ?_, ?_, ?_, ?_⟩
  · rw [rotateOp, hdec, List.filter_append, List.filter_append, List.filter_cons]
    simp only [deprecateEntry, hename, beq_self_eq_true, if_true, hnils.1, hnils.2,
      List.filter_cons, List.filter_nil, mkEntry, List.nil_append]
    rfl
  · intro hne
    exact hfresh (hne ▸ List.mem_map_of_mem Entry.id he)
  · intro t id2 nm2 sc c2 x hx hxd
    rcases List.mem_append.1 hx with hx | hx
    · exact hx
    · simp only [List.mem_singleton] at hx
      rw [hx, mkEntry] at hxd
      simp at hxd
  · intro t e2 nid sc c2 x hx hxd
    rcases List.mem_append.1 hx with hx | hx
    · exact List.mem_of_mem_filter hx
    · simp only [List.mem_singleton] at hx
      rw [hx, mkEntry] at hxd
      simp at hxd
  · intro t nm2 x hx _
    exact List.mem_of_mem_filter hx

/-- Witness for C5 on a concrete one-entry store. -/
theorem c5_rotate_witness :
    (rotateOp [eAct] eAct "id-9" "t1" ['q'] "t2").filter
        (fun x => x.name == "example.com")
      = [deprecateEntry eAct "t1", mkEntry "id-9" eAct.name ['q'] "t2"]
    ∧ eAct.id ≠ "id-9" := by
  have h := c5_rotate_lifecycle [eAct] eAct "example.com" "id-9" "t1" "t2" ['q']
    (by decide) (by decide) (by decide) (by decide)
  exact ⟨h.1, h.2.2.2.2.2.2.2.2.2.1⟩

/-- C7: in every store reachable from the empty store by the lifecycle
    operations, every entry has deprecatedAt present iff deprecated is
    true. -/
theorem c7_deprecatedAt_invariant (s : List Entry) (h : Reachable s) :
    DeprecatedAtInv s := by
  induction h with
  | empty => intro e he; simp at he
  | gen s id nm sec cAt _ ih =>
    intro x hx
    rcases List.mem_append.1 hx with hx | hx
    · exact ih x hx
    · simp only [List.mem_singleton] at hx
      subst hx
      simp [mkEntry]
  | rotate s e nid depAt sec cAt _ hmem hdep ih =>
    intro x hx
    rcases List.mem_append.1 hx with hx | hx
    · rcases mem_deprecateFirst _ _ s x hx with hx | ⟨y, _, rfl⟩
      · exact ih x hx
      · simp [deprecateEntry]
    · simp only [List.mem_singleton] at hx
      subst hx
      simp [mkEntry]
  | replace s e nid sec cAt _ hmem ih =>
    intro x hx
    rcases List.mem_append.1 hx with hx | hx
    · exact ih x (List.mem_of_mem_filter hx)
    · simp only [List.mem_singleton] at hx
      subst hx
      simp [mkEntry]
  | delete s nm _ ih =>
    intro x hx
    exact ih x (List.mem_of_mem_filter hx)

/-- Witness for C7 on a concrete reachable store. -/
theorem c7_invariant_witness :
    DeprecatedAtInv (genOp [] "id-1" "example.com" ['p'] "t0") :=
  c7_deprecatedAt_invariant _
    (Reachable.gen [] "id-1" "example.com" ['p'] "t0" Reachable.empty)

/-- C8: with entries present and the confirmation accepted, deleteFlow writes
    the store with every entry of the chosen name removed — active and
    deprecated alike — keeps every entry with another name, and reports a
    removed-count equal to the number of entries deleted. -/
theorem c8_deleteFlow_removes_all (s : List Entry) (nm : String) (h : s ≠ []) :
    deleteFlow s nm true = some (removeAllByName s nm,
        (s.filter (fun e => e.name == nm)).length)
    ∧ removeAllByName s nm = s.filter (fun e => e.name != nm)
    ∧ (∀ x ∈ removeAllByName s nm, x.name ≠ nm)
    ∧ (∀ x ∈ s, x.name ≠ nm → x ∈ removeAllByName s nm)
    ∧ s.length = (removeAllByName s nm).length
        + (s.filter (fun e => e.name == nm)).length := by
  have hpart := filter_name_partition s nm
  have hemp : s.isEmpty = false := List.isEmpty_eq_false.2 h
  refine ⟨?_, rfl, ?_, ?_, ?_⟩
  · rw [deleteFlow, hemp]
    simp only [Bool.false_eq_true, if_false, if_true]
    have : s.length - (removeAllByName s nm).length
        = (s.filter (fun e => e.name == nm)).length := by
      rw [removeAllByName] at *
      omega
    rw [this]
  · intro x hx
    have := List.of_mem_filter hx
    simpa using this
  · intro x hx hne
    exact List.mem_filter.2 ⟨hx, by simpa using hne⟩
  · rw [removeAllByName]
    omega

/-- Witness for C8: deleting example.com from a store holding one active and
    two deprecated entries of that name plus one other entry removes exactly
    three entries. -/
theorem c8_delete_witness :
    deleteFlow sDel "example.com" true = some (removeAllByName sDel "example.com",
      (sDel.filter (fun e => e.name == "example.com")).length)
    ∧ (sDel.filter (fun e => e.name == "example.com")).length = 3
    ∧ removeAllByName sDel "example.com" = [eOther] := by
  refine ⟨(c8_deleteFlow_removes_all sDel "example.com" (by decide)).1, by decide, by decide⟩

/-- C9: rotate changes the old entry in place only in its deprecation
    fields: deprecateEntry keeps id, name, secret and createdAt, and in the
    rotated store every original position keeps its id, name, secret and
    createdAt. -/
theorem c9_rotate_frame (s : List Entry) (e : Entry) (nid depAt cAt : String)
    (sec : List Char) (i : Nat) (hi : i < s.length) :
    ((deprecateEntry e depAt).id = e.id
      ∧ (deprecateEntry e depAt).name = e.name
      ∧ (deprecateEntry e depAt).secret = e.secret
      ∧ (deprecateEntry e depAt).createdAt = e.createdAt)
    ∧ (((rotateOp s e nid depAt sec cAt).getD i dEntry).id = (s.getD i dEntry).id
      ∧ ((rotateOp s e nid depAt sec cAt).getD i dEntry).name = (s.getD i dEntry).name
      ∧ ((rotateOp s e nid depAt sec cAt).getD i dEntry).secret = (s.getD i dEntry).secret
      ∧ ((rotateOp s e nid depAt sec cAt).getD i dEntry).createdAt
          = (s.getD i dEntry).createdAt) := by
  refine ⟨⟨rfl, rfl, rfl, rfl⟩, ?_⟩
  have hlen : (deprecateFirst e.id depAt s).length = s.length :=
    length_deprecateFirst e.id depAt s
  have hgetD : (rotateOp s e nid depAt sec cAt).getD i dEntry
      = (deprecateFirst e.id depAt s).getD i dEntry := by
    rw [rotateOp]
    exact List.getD_append _ _ _ _ (by omega)
  rw [hgetD]
  exact deprecateFirst_fields e.id depAt s i

/-- Witness for C9 on a concrete one-entry store. -/
theorem c9_rotate_frame_witness :
    ((rotateOp [eAct] eAct "id-9" "t1" ['q'] "t2").getD 0 dEntry).id
      = (([eAct] : List Entry).getD 0 dEntry).id
    ∧ ((rotateOp [eAct] eAct "id-9" "t1" ['q'] "t2").getD 0 dEntry).secret
      = (([eAct] : List Entry).getD 0 dEntry).secret := by
  have h := c9_rotate_frame [eAct] eAct "id-9" "t1" "t2" ['q'] 0 (by decide)
  exact ⟨h.2.1, h.2.2.2.1⟩

/-- C10: if the user declines the confirmation prompt, deleteFlow performs
    no write and the persisted entries are exactly those loaded. -/
theorem c10_delete_declined (s : List Entry) (nm : String) :
    deleteFlow s nm false = none ∧ persistedAfterDelete s nm false = s := by
  constructor
  · rw [deleteFlow]
    by_cases h : s.isEmpty = true
    · rw [if_pos h]
    · rw [if_neg h]
      simp
  · rw [persistedAfterDelete]
    have hnone : deleteFlow s nm false = none := by
      rw [deleteFlow]
      by_cases h : s.isEmpty = true
      · rw [if_pos h]
      · rw [if_neg h]
        simp
    rw [hnone]

/-- C6 counterexample: a deprecated entry whose secret fails to decrypt is
    shown through showDeprecated with no try/catch, so the session
    terminates instead of continuing — no Replace-on-corruption choice is
    offered. -/
theorem c6_counterexample :
    showDeprecated (decryptText gW keyW) [eDep] "id-2" = .crashed := by decide

/-- C6 amended: a decrypt failure on an Active entry selected in the Get
    flow offers the interactive choice and the session continues with either
    answer — Back leaves the store as loaded, Delete-and-new replaces the
    corrupted entry; but a decrypt failure on a Deprecated entry inside
    showDeprecated is uncaught and terminates the session. -/
theorem c6_corruption_handling (dec : List Char → Except DecErr (List Nat))
    (s : List Entry) (entry : Entry) (err : DecErr)
    (hfind : s.find? (fun e => e.id == entry.id) = some entry)
    (hmem : entry ∈ s)
    (hdec : dec entry.secret = .error err) :
    (entry.deprecated = false →
      ∀ next selDep newId depAt sec cAt,
        getFlow dec s entry.id .back next selDep newId depAt sec cAt = .ok s
        ∧ getFlow dec s entry.id .regen next selDep newId depAt sec cAt
            = .ok (replaceOp s entry newId sec cAt))
    ∧ (entry.deprecated = true → showDeprecated dec s entry.id = .crashed) := by
  constructor
  · intro hact next selDep newId depAt sec cAt
    have hmf : entry ∈ s.filter (fun e => !e.deprecated) :=
      List.mem_filter.2 ⟨hmem, by simp [hact]⟩
    have hne : (s.filter (fun e => !e.deprecated)).isEmpty = false :=
      List.isEmpty_eq_false.2 (List.ne_nil_of_mem hmf)
    constructor
    · rw [getFlow, hne]
      simp only [Bool.false_eq_true, if_false, hfind, hdec]
    · rw [getFlow, hne]
      simp only [Bool.false_eq_true, if_false, hfind, hdec]
  · intro hdep
    have hmf : entry ∈ s.filter (fun e => e.deprecated) :=
      List.mem_filter.2 ⟨hmem, by simp [hdep]⟩
    have hne : (s.filter (fun e => e.deprecated)).isEmpty = false :=
      List.isEmpty_eq_false.2 (List.ne_nil_of_mem hmf)
    rw [showDeprecated, hne]
    simp only [Bool.false_eq_true, if_false, hfind, hdec]

/-- Witness for the C6 amended theorem on a concrete corrupt active entry. -/
theorem c6_corruption_witness :
    getFlow (decryptText gW keyW) [eBad] "id-5" .back .back "" "id-9" "t1"
      ['q'] "t2" = .ok [eBad] := by
  have h := c6_corruption_handling (decryptText gW keyW) [eBad] eBad
    .formatError (by decide) (by decide) rfl
  exact (h.1 (by decide) .back "" "id-9" "t1" ['q'] "t2").1

end PasswdM
